import Mathlib

/-!
# Verification of the Cerebrum resilience and prompt-compression pipeline

A shallow embedding, in Lean 4, of the core of the `Cerebrum` repository
(the CM4 front node under `cerebrum-pi/cerebrum/`): the chunker, the
deduplicator, the lexical ranker, the instruction splitter, the prompt
assembler, the smart-chunking pipeline, the load-shedding admission gate,
and the resilient VPS client's circuit breaker, retry loop and statistics.

Python strings are modelled as Lean `String`s viewed as their lists of
characters (`String.data`): Python string operations act on sequences of
Unicode code points, which is exactly the `List Char` view.  Python's
`time.time()` floats are modelled as exact rationals (`ℚ`): the claims
under study concern only branch decisions on `now - last < cooldown`, not
floating-point rounding.  Python integers are `Nat`/`Int` as appropriate.
Each definition is translated from the named source function.
-/

/-! ## Python string primitives (`List Char` view) -/

/-- Python `str.strip()` with no argument: remove leading and trailing
whitespace (modelled with `Char.isWhitespace`). -/
def pyStrip (s : String) : String :=
  String.mk (((s.data.dropWhile fun c => c.isWhitespace).reverse.dropWhile
    fun c => c.isWhitespace).reverse)

/-- Split a character list at `'\n'` characters, keeping empty segments.
`splitNl "ab\nc" = [[a,b],[c]]`, `splitNl "" = [[]]`. -/
def splitNl : List Char → List (List Char)
  | [] => [[]]
  | c :: cs =>
    if c = '\n' then [] :: splitNl cs
    else
      match splitNl cs with
      | [] => [[c]]
      | l :: ls => (c :: l) :: ls

/-- Python `str.splitlines()` restricted to `'\n'` line endings (the
repository's texts use `'\n'`): the empty string yields `[]`, and a trailing
newline does not produce a final empty line. -/
def pySplitlines (s : String) : List String :=
  if s.data = [] then []
  else
    let parts := splitNl s.data
    let parts := if parts.getLast? = some [] then parts.dropLast else parts
    parts.map String.mk

/-- Python `str.startswith(pre)` on the character-list view. -/
def charsStartWith : List Char → List Char → Bool
  | _, [] => true
  | [], _ :: _ => false
  | c :: cs, p :: ps => c = p && charsStartWith cs ps

/-- Python `s.startswith(pre)`. -/
def pyStartswith (s pre : String) : Bool :=
  charsStartWith s.data pre.data

/-- Python slice `s[a:b]` (character indices, as Python indexes code
points). -/
def pySlice (s : String) (a b : Nat) : String :=
  String.mk ((s.data.drop a).take (b - a))

/-- Python slice `s[-n:]`: the last `n` characters (all of `s` if shorter). -/
def pyTakeLast (s : String) (n : Nat) : String :=
  String.mk (s.data.drop (s.data.length - n))

/-! ## Chunker (`cerebrum/retrieval/chunker.py`)

`chunk_text`'s `while start < length` loop need not terminate (see
`chunk_text_diverges_overlap_eq_max` below), so the loop is embedded with
explicit fuel: `none` means the fuel ran out before the loop finished, and
`chunkLoop_total_of_overlap_lt` shows fuel `length + 1` always suffices in
the terminating regime `overlap < max_chars` used by the pipeline. -/

/-- The body of `chunk_text`'s `while start < length` loop.  One recursive
call per iteration: slice `text[start:end]` with `end = min (start +
max_chars) length`, stop when `end = length`, otherwise continue from
`start = end - overlap` (Python clamps a negative start to `0`; `Nat`
subtraction is that clamp). -/
def chunkLoop (text : String) (maxChars overlap : Nat) : Nat → Nat → Option (List String)
  | _, 0 => none
  | start, fuel + 1 =>
    if start < text.data.length then
      let e := min (start + maxChars) text.data.length
      let piece := pySlice text start e
      if e = text.data.length then some [piece]
      else
        match chunkLoop text maxChars overlap (e - overlap) fuel with
        | some rest => some (piece :: rest)
        | none => none
    else some []

/-- `chunk_text(text, max_chars, overlap)` with explicit fuel for the window
loop.  Texts no longer than `max_chars` are returned as a single chunk
without entering the loop. -/
def chunk_textF (text : String) (maxChars overlap fuel : Nat) : Option (List String) :=
  if text.data.length ≤ maxChars then some [text]
  else chunkLoop text maxChars overlap 0 fuel

/-- In the terminating regime `overlap < max_chars`, each iteration advances
`start` by at least `max_chars - overlap ≥ 1`, so fuel `length - start + 1`
always suffices. -/
theorem chunkLoop_total_of_overlap_lt (text : String) (maxChars overlap : Nat)
    (hlt : overlap < maxChars) :
    ∀ fuel start, text.data.length - start < fuel →
      (chunkLoop text maxChars overlap start fuel).isSome := by
  intro fuel
  induction fuel with
  | zero => intro start h; omega
  | succ n ih =>
    intro start h
    rw [chunkLoop]
    dsimp only
    split
    · next hs =>
      split
      · simp
      · next hne =>
        have he : min (start + maxChars) text.data.length = start + maxChars := by
          omega
        rw [he]
        have hrec := ih (start + maxChars - overlap) (by omega)
        rcases Option.isSome_iff_exists.mp hrec with ⟨v, hv⟩
        rw [hv]
        simp
    · simp

/-- `chunk_text` with the source's default parameters `max_chars = 1000`,
`overlap = 150`, as called by the pipeline.  The fuel `length + 1` is
sufficient by `chunkLoop_total_of_overlap_lt`, so the `getD` default is
never taken. -/
def chunk_text (text : String) : List String :=
  (chunk_textF text 1000 150 (text.data.length + 1)).getD []

/-- `should_chunk(text, threshold=1500)` (`chunker.py`). -/
def should_chunk (text : String) : Bool :=
  1500 < text.data.length

/-- C3: `chunk_text` terminates for every input — REFUTED (code bug).  On
`text = "ab"`, `max_chars = 1`, `overlap = 1`, the loop computes `end =
start + 1 < 2`, then `start = end - overlap = start`: the clamp to a
non-negative start (`if start < 0: start = 0`) does not create forward
progress, and the loop re-emits `text[0:1]` forever.  Formally: the fueled
embedding returns `none` (the loop is still running) for every fuel value,
so no finite number of iterations completes the loop, contradicting the
claimed "forward progress of at least 1 character per step". -/
theorem chunk_text_diverges_overlap_eq_max :
    ∀ fuel : Nat, chunk_textF "ab" 1 1 fuel = none := by
  have hloop : ∀ fuel : Nat, chunkLoop "ab" 1 1 0 fuel = none := by
    intro fuel
    induction fuel with
    | zero => rfl
    | succ n ih =>
      rw [chunkLoop]
      norm_num
      rw [ih]
  intro fuel
  unfold chunk_textF
  norm_num
  exact hloop fuel

/-! ## Relevance ranker and deduplicator (`cerebrum/retrieval/ranker.py`) -/

/-- Python `text.lower().split()`: case-insensitive whitespace tokenization,
empty tokens discarded, collapsed into a set (`set(...)`). -/
def pyTokens (s : String) : Finset String :=
  (((s.toLower.data.splitOnP fun c => c.isWhitespace).map String.mk).filter
    fun t => t ≠ "").toFinset

/-- `score_chunk(chunk, query)`: `len(query_tokens & chunk_tokens)`. -/
def score_chunk (chunk query : String) : Nat :=
  (pyTokens query ∩ pyTokens chunk).card

/-- The fingerprint `hash(chunk.strip())` used by `dedupe_chunks`.  Python's
string hash is equal on equal strings; the embedding uses the normalized
string itself as the fingerprint (the spec's design notes accept collisions
of the builtin hash as a rare false-dedupe outside the model). -/
def chunkFingerprint (chunk : String) : String :=
  pyStrip chunk

/-- The loop of `dedupe_chunks`: `seen` is the set of fingerprints already
emitted (modelled as a list), and a chunk is kept iff its fingerprint is not
in `seen`. -/
def dedupeAux (seen : List String) : List String → List String
  | [] => []
  | c :: rest =>
    if chunkFingerprint c ∈ seen then dedupeAux seen rest
    else c :: dedupeAux (chunkFingerprint c :: seen) rest

/-- `dedupe_chunks(chunks)`: keep the first occurrence of each fingerprint,
in order. -/
def dedupe_chunks (chunks : List String) : List String :=
  dedupeAux [] chunks

/-- Stable descending insertion, by a `Nat`-valued key: `x` is placed before
the first element whose key is `≤` its own.  Folding this over the input
from the right is exactly Python's stable `sorted(xs, key=f, reverse=True)`:
each element is inserted after every strictly-greater key and before every
`≤` key, and since it is inserted into the sort of the elements to its
*right*, equal keys keep their original relative order. -/
def insertDesc (f : α → Nat) (x : α) : List α → List α
  | [] => [x]
  | y :: rest =>
    if f y ≤ f x then x :: y :: rest
    else y :: insertDesc f x rest

/-- Python `sorted(xs, key=f, reverse=True)` (a stable descending sort). -/
def sortDesc (f : α → Nat) (xs : List α) : List α :=
  xs.foldr (insertDesc f) []

/-- `select_top_chunks(chunks, query, k)` (`ranker.py`). -/
def select_top_chunks (chunks : List String) (query : String) (k : Nat) : List String :=
  if chunks.length ≤ k then chunks
  else (sortDesc (fun c => score_chunk c query) chunks).take k

theorem insertDesc_perm (f : α → Nat) (x : α) (l : List α) :
    List.Perm (insertDesc f x l) (x :: l) := by
  induction l with
  | nil => exact List.Perm.refl _
  | cons y rest ih =>
    rw [insertDesc]
    split
    · exact List.Perm.refl _
    · exact ((ih.cons y).trans (List.Perm.swap x y rest))

theorem sortDesc_perm (f : α → Nat) (xs : List α) : List.Perm (sortDesc f xs) xs := by
  induction xs with
  | nil => exact List.Perm.refl _
  | cons x rest ih =>
    exact (insertDesc_perm f x (sortDesc f rest)).trans (ih.cons x)

theorem insertDesc_pairwise (f : α → Nat) (x : α) (l : List α)
    (hl : l.Pairwise fun a b => f b ≤ f a) :
    (insertDesc f x l).Pairwise fun a b => f b ≤ f a := by
  induction l with
  | nil => simp [insertDesc]
  | cons y rest ih =>
    rw [insertDesc]
    obtain ⟨hy, hrest⟩ := List.pairwise_cons.mp hl
    split
    · next hle =>
      refine List.Pairwise.cons ?_ (List.Pairwise.cons hy hrest)
      intro b hb
      rcases List.mem_cons.mp hb with hb | hb
      · exact hb ▸ hle
      · exact le_trans (hy b hb) hle
    · next hgt =>
      refine List.Pairwise.cons ?_ (ih hrest)
      intro b hb
      rcases List.mem_cons.mp ((insertDesc_perm f x rest).mem_iff.mp hb) with hb | hb
      · exact hb ▸ le_of_lt (lt_of_not_le hgt)
      · exact hy b hb
  
theorem sortDesc_pairwise (f : α → Nat) (xs : List α) :
    (sortDesc f xs).Pairwise fun a b => f b ≤ f a := by
  induction xs with
  | nil => exact List.Pairwise.nil
  | cons x rest ih => exact insertDesc_pairwise f x (sortDesc f rest) ih

theorem insertDesc_filter_key (f : α → Nat) (x : α) (l : List α) (n : Nat) :
    (insertDesc f x l).filter (fun a => f a = n) =
      if f x = n then x :: l.filter (fun a => f a = n)
      else l.filter (fun a => f a = n) := by
  induction l with
  | nil => by_cases h : f x = n <;> simp [insertDesc, h]
  | cons y rest ih =>
    rw [insertDesc]
    split
    · next hle =>
      simp only [List.filter_cons]
      by_cases h : f x = n <;> simp [h]
    · next hgt =>
      simp only [List.filter_cons, ih]
      by_cases h : f x = n
      · have hy : ¬ f y = n := by
          intro hy
          exact hgt (le_of_eq (hy.trans h.symm))
        simp [h, hy]
      · by_cases hy' : f y = n <;> simp [h, hy']

theorem sortDesc_filter_key (f : α → Nat) (xs : List α) (n : Nat) :
    (sortDesc f xs).filter (fun a => f a = n) = xs.filter (fun a => f a = n) := by
  induction xs with
  | nil => rfl
  | cons x rest ih =>
    show (insertDesc f x (sortDesc f rest)).filter _ = _
    rw [insertDesc_filter_key]
    by_cases h : f x = n <;> simp [List.filter_cons, h, ih]

theorem dedupeAux_sublist (seen : List String) (l : List String) :
    (dedupeAux seen l).Sublist l := by
  induction l generalizing seen with
  | nil => simp [dedupeAux]
  | cons c rest ih =>
    rw [dedupeAux]
    split
    · exact (ih seen).trans (List.sublist_cons_self c rest)
    · exact (ih (chunkFingerprint c :: seen)).cons₂ c

theorem dedupeAux_filter_fp (l : List String) :
    ∀ (seen : List String) (s : String),
      (dedupeAux seen l).filter (fun c => chunkFingerprint c = s)
        = if s ∈ seen then []
          else (l.filter (fun c => chunkFingerprint c = s)).take 1 := by
  induction l with
  | nil => intro seen s; by_cases h : s ∈ seen <;> simp [dedupeAux, h]
  | cons c rest ih =>
    intro seen s
    rw [dedupeAux]
    split
    · next hin =>
      rw [ih seen s]
      by_cases hs : s ∈ seen
      · simp [hs]
      · have hcs : ¬ chunkFingerprint c = s := fun h => hs (h ▸ hin)
        simp [hs, List.filter_cons, hcs]
    · next hnin =>
      by_cases hcs : chunkFingerprint c = s
      · have hs : ¬ s ∈ seen := fun h => hnin (hcs ▸ h)
        have htail : s ∈ chunkFingerprint c :: seen := by
          rw [hcs]; exact List.mem_cons_self _ _
        simp [List.filter_cons, hcs, ih _ s, htail, hs]
      · rw [List.filter_cons]
        simp only [hcs]
        rw [ih (chunkFingerprint c :: seen) s]
        by_cases hs : s ∈ seen
        · simp [hs, List.mem_cons, List.filter_cons, hcs]
        · have hns : ¬ s ∈ chunkFingerprint c :: seen := by
            intro h
            rcases List.mem_cons.mp h with h | h
            · exact hcs h.symm
            · exact hs h
          simp [hns, hs, List.filter_cons, hcs]

theorem dedupeAux_not_seen (l : List String) :
    ∀ (seen : List String) (c : String), c ∈ dedupeAux seen l →
      chunkFingerprint c ∉ seen := by
  induction l with
  | nil => intro seen c h; simp [dedupeAux] at h
  | cons a rest ih =>
    intro seen c h
    rw [dedupeAux] at h
    split at h
    · exact ih seen c h
    · next hnin =>
      rcases List.mem_cons.mp h with h | h
      · exact h ▸ hnin
      · intro hs
        exact ih _ c h (List.mem_cons_of_mem _ hs)

theorem dedupeAux_pairwise (l : List String) :
    ∀ seen : List String, (dedupeAux seen l).Pairwise
      fun a b => chunkFingerprint a ≠ chunkFingerprint b := by
  induction l with
  | nil => intro seen; simp [dedupeAux]
  | cons a rest ih =>
    intro seen
    rw [dedupeAux]
    split
    · exact ih seen
    · refine List.Pairwise.cons ?_ (ih _)
      intro b hb heq
      exact dedupeAux_not_seen rest _ b hb (heq ▸ List.mem_cons_self _ _)

theorem dedupeAux_id_of (l : List String) :
    ∀ seen : List String, (∀ c ∈ l, chunkFingerprint c ∉ seen) →
      l.Pairwise (fun a b => chunkFingerprint a ≠ chunkFingerprint b) →
      dedupeAux seen l = l := by
  induction l with
  | nil => intro seen _ _; rfl
  | cons a rest ih =>
    intro seen hseen hpw
    obtain ⟨ha, hrest⟩ := List.pairwise_cons.mp hpw
    rw [dedupeAux]
    rw [if_neg (hseen a (List.mem_cons_self _ _))]
    rw [ih (chunkFingerprint a :: seen) ?_ hrest]
    intro c hc
    intro hmem
    rcases List.mem_cons.mp hmem with h | h
    · exact ha c hc h.symm
    · exact hseen c (List.mem_cons_of_mem _ hc) h

/-- C9: `dedupe_chunks` is idempotent and order-preserving — CONFIRMED.  For
every input: (1) `dedupe(dedupe(chunks)) = dedupe(chunks)`; (2) the output
is a sublist of the input (the surviving chunks appear in their original
order); (3) for every fingerprint value `s` (the normalized chunk text),
the output keeps exactly the first input chunk with that fingerprint and
drops all later ones. -/
theorem dedupe_chunks_spec (chunks : List String) :
    dedupe_chunks (dedupe_chunks chunks) = dedupe_chunks chunks
    ∧ (dedupe_chunks chunks).Sublist chunks
    ∧ ∀ s : String,
        (dedupe_chunks chunks).filter (fun c => chunkFingerprint c = s)
          = (chunks.filter (fun c => chunkFingerprint c = s)).take 1 := by
  refine ⟨?_, dedupeAux_sublist [] chunks, ?_⟩
  · exact dedupeAux_id_of _ [] (by simp) (dedupeAux_pairwise chunks [])
  · intro s
    have h := dedupeAux_filter_fp chunks [] s
    simp only [List.not_mem_nil, if_false] at h
    exact h

/-- C8: `select_top_chunks` — CONFIRMED.  For every chunk list, query and
`k`: the result never has more than `k` items nor more than the input; if
`len(chunks) ≤ k` the input is returned unchanged; otherwise the result is
the first `k` items of the stable descending sort of the chunks by
`score_chunk` (token-set overlap with the query): that sorted list is a
permutation of the input, its scores are in descending order, ties are
broken by the chunks' original order (for each score value, the equal-score
chunks appear exactly in input order), and every selected chunk scores at
least as high as every chunk left out. -/
theorem select_top_chunks_spec (chunks : List String) (query : String) (k : Nat) :
    (select_top_chunks chunks query k).length ≤ k
    ∧ (select_top_chunks chunks query k).length ≤ chunks.length
    ∧ (chunks.length ≤ k → select_top_chunks chunks query k = chunks)
    ∧ (k < chunks.length →
        select_top_chunks chunks query k
          = (sortDesc (fun c => score_chunk c query) chunks).take k
        ∧ List.Perm (sortDesc (fun c => score_chunk c query) chunks) chunks
        ∧ (sortDesc (fun c => score_chunk c query) chunks).Pairwise
            (fun a b => score_chunk b query ≤ score_chunk a query)
        ∧ (∀ n : Nat,
            (sortDesc (fun c => score_chunk c query) chunks).filter
                (fun c => score_chunk c query = n)
              = chunks.filter (fun c => score_chunk c query = n))
        ∧ ∀ a ∈ select_top_chunks chunks query k,
            ∀ b ∈ (sortDesc (fun c => score_chunk c query) chunks).drop k,
              score_chunk b query ≤ score_chunk a query) := by
  set f : String → Nat := fun c => score_chunk c query with hf
  have hperm := sortDesc_perm f chunks
  have hlen : (sortDesc f chunks).length = chunks.length := hperm.length_eq
  by_cases hk : chunks.length ≤ k
  · refine ⟨?_, ?_, fun _ => ?_, fun hlt => absurd hlt (not_lt.mpr hk)⟩ <;>
      simp [select_top_chunks, hk]
  · have hsel : select_top_chunks chunks query k = (sortDesc f chunks).take k := by
      simp [select_top_chunks, hk, hf]
    have hpw := sortDesc_pairwise f chunks
    refine ⟨?_, ?_, fun h => absurd h hk, fun _ => ⟨hsel, hperm, hpw, ?_, ?_⟩⟩
    · rw [hsel, List.length_take]
      exact min_le_left _ _
    · rw [hsel]
      rw [List.length_take, hlen]
      exact min_le_right _ _
    · intro n
      exact sortDesc_filter_key f chunks n
    · intro a ha b hb
      rw [hsel] at ha
      have := (List.pairwise_append.mp
        ((List.take_append_drop k (sortDesc f chunks)).symm ▸ hpw)).2.2
      exact this a ha b hb

/-! ## Instruction splitter (`cerebrum/retrieval/instruction_parser.py`) -/

/-- The fixed marker tuple of `extract_instruction`:
`("# INSTRUCTION:", "INSTRUCTION:", "# REFACTOR:", "REFACTOR:", "# TODO:",
"TODO:")`.  Note: the spec also lists `Task:`, which is absent here. -/
def markerStrings : List String :=
  ["# INSTRUCTION:", "INSTRUCTION:", "# REFACTOR:", "REFACTOR:", "# TODO:", "TODO:"]

/-- `any(line.startswith(m) for m in markers)` on an already-stripped line. -/
def isMarkerLine (line : String) : Bool :=
  markerStrings.any fun m => pyStartswith line m

/-- The lower end of `range(len(lines) - 1, max(len(lines) - 12, -1), -1)`
(the stop argument is exclusive, so for `n ≥ 12` the scan reaches down only
to index `n - 11`). -/
def scanLo (n : Nat) : Nat :=
  if 12 ≤ n then n - 11 else 0

/-- The indices visited by `extract_instruction`'s backward scan, in visit
order (highest first). -/
def scanIndices (n : Nat) : List Nat :=
  (List.range' (scanLo n) (n - scanLo n)).reverse

/-- `extract_instruction(prompt)` (`instruction_parser.py`): strip, split
into lines, scan the bounded tail backward for a marker line; on a match at
index `i` return `(strip(join(lines[:i])), strip(join(lines[i:])))`, else
`(prompt, "")`. -/
def extract_instruction (prompt : String) : String × String :=
  let lines := pySplitlines (pyStrip prompt)
  match (scanIndices lines.length).find?
      (fun i => isMarkerLine (pyStrip (lines.getD i ""))) with
  | some i =>
    (pyStrip (String.intercalate "\n" (lines.take i)),
     pyStrip (String.intercalate "\n" (lines.drop i)))
  | none => (prompt, "")

theorem find_first_of_sorted_gt (p : Nat → Bool) (l : List Nat)
    (hsort : l.Pairwise (· > ·)) (i : Nat) (hmem : i ∈ l) (hp : p i = true)
    (hmax : ∀ j ∈ l, i < j → p j = false) : l.find? p = some i := by
  induction l with
  | nil => simp at hmem
  | cons y rest ih =>
    obtain ⟨hy, hrest⟩ := List.pairwise_cons.mp hsort
    rcases List.mem_cons.mp hmem with h | h
    · subst h
      simp [List.find?_cons, hp]
    · have hgt : i < y := hy i h
      have hpy : p y = false := hmax y (List.mem_cons_self _ _) hgt
      rw [List.find?_cons, hpy]
      exact ih hrest h fun j hj => hmax j (List.mem_cons_of_mem _ hj)

theorem scanIndices_sorted_gt (n : Nat) : (scanIndices n).Pairwise (· > ·) := by
  rw [scanIndices, List.pairwise_reverse]
  exact List.pairwise_lt_range' _ _

/-- C6 counterexample: the spec's marker set includes `Task:` but the code's
does not.  For the prompt `"x\nTask: do y"`, the last line begins with
`"Task:"`, yet `extract_instruction` finds no marker and returns
`(prompt, "")` instead of splitting before that line. -/
theorem extract_instruction_task_cex :
    (pySplitlines (pyStrip "x\nTask: do y")).getLastD "" = "Task: do y"
    ∧ pyStartswith "Task: do y" "Task:" = true
    ∧ extract_instruction "x\nTask: do y" = ("x\nTask: do y", "")
    ∧ extract_instruction "x\nTask: do y" ≠ ("x", "Task: do y") := by
  refine ⟨by decide, by decide, by decide, by decide⟩

/-- C6 (amended): `extract_instruction` splits `prompt` into
`(code, instruction)` by scanning the last `N` lines (here `N = 11`: the
`range` stop `max(len - 12, -1)` is exclusive) backward from the end for a
line that — after stripping — begins with one of `INSTRUCTION:`,
`REFACTOR:` or `TODO:`, each optionally `# `-prefixed (`Task:` is *not* a
marker).  The first such line found scanning backward (i.e. the greatest
marker index in the scanned range) splits the prompt: everything before
that line is the code, everything from it onward is the instruction (each
side joined and stripped).  If no scanned line is a marker, the result is
`(prompt, "")` — in particular for a prompt whose only candidate line
begins with `Task:`. -/
theorem extract_instruction_spec (prompt : String) :
    ((∀ j ∈ scanIndices (pySplitlines (pyStrip prompt)).length,
        isMarkerLine (pyStrip ((pySplitlines (pyStrip prompt)).getD j "")) = false) →
      extract_instruction prompt = (prompt, ""))
    ∧ ∀ i ∈ scanIndices (pySplitlines (pyStrip prompt)).length,
        isMarkerLine (pyStrip ((pySplitlines (pyStrip prompt)).getD i "")) = true →
        (∀ j ∈ scanIndices (pySplitlines (pyStrip prompt)).length, i < j →
          isMarkerLine (pyStrip ((pySplitlines (pyStrip prompt)).getD j "")) = false) →
        extract_instruction prompt
          = (pyStrip (String.intercalate "\n" ((pySplitlines (pyStrip prompt)).take i)),
             pyStrip (String.intercalate "\n" ((pySplitlines (pyStrip prompt)).drop i))) := by
  constructor
  · intro hnone
    rw [extract_instruction]
    have h : (scanIndices (pySplitlines (pyStrip prompt)).length).find?
        (fun i => isMarkerLine (pyStrip ((pySplitlines (pyStrip prompt)).getD i ""))) = none := by
      rw [List.find?_eq_none]
      intro j hj
      simpa using hnone j hj
    rw [h]
  · intro i hmem hp hmax
    rw [extract_instruction]
    have h := find_first_of_sorted_gt
      (fun j => isMarkerLine (pyStrip ((pySplitlines (pyStrip prompt)).getD j "")))
      (scanIndices (pySplitlines (pyStrip prompt)).length)
      (scanIndices_sorted_gt _) i hmem hp hmax
    rw [h]

/-! ## Prompt assembler (`cerebrum/retrieval/assembler.py`) -/

/-- One labeled context block: `f"CONTEXT {i+1}:\n{chunk}"`. -/
def labelBlock (i : Nat) (chunk : String) : String :=
  "CONTEXT " ++ toString (i + 1) ++ ":\n" ++ chunk

/-- The block-building loop of `assemble_prompt`: `total` is the running
character total (seeded with `len(user_prompt)` by the caller), `i` the
running chunk index; the loop `break`s — returning what was built so far —
at the first chunk that would push `total` past `max_context_chars`. -/
def contextBlocks (maxContextChars : Nat) : Nat → Nat → List String → List String
  | _, _, [] => []
  | total, i, c :: rest =>
    if maxContextChars < total + c.data.length then []
    else labelBlock i c :: contextBlocks maxContextChars (total + c.data.length) (i + 1) rest

/-- The fixed instructional template wrapping context and user text. -/
def wrapContext (userPrompt : String) (blocks : List String) : String :=
  "SYSTEM:\nYou are an expert code assistant. Use the context below only if relevant.\n\n"
    ++ String.intercalate "\n\n" blocks ++ "\n\nUSER:\n" ++ userPrompt ++ "\n"

/-- `assemble_prompt(user_prompt, chunks, max_context_chars=2500)`
(`assembler.py`): empty chunk list or no fitting block returns the user
prompt unchanged, otherwise the wrapped template. -/
def assemble_prompt (userPrompt : String) (chunks : List String)
    (maxContextChars : Nat := 2500) : String :=
  if chunks = [] then userPrompt
  else
    let blocks := contextBlocks maxContextChars userPrompt.data.length 0 chunks
    if blocks = [] then userPrompt
    else wrapContext userPrompt blocks

/-- `labelBlock` applied along a list with a running index: the shape of
what `contextBlocks` builds from the prefix it accepts. -/
def labelBlocks : Nat → List String → List String
  | _, [] => []
  | i, c :: rest => labelBlock i c :: labelBlocks (i + 1) rest

/-- Total character count of a chunk list. -/
def sumLens (xs : List String) : Nat :=
  (xs.map fun c => c.data.length).sum

theorem sumLens_nil : sumLens [] = 0 := rfl

theorem sumLens_cons (c : String) (rest : List String) :
    sumLens (c :: rest) = c.data.length + sumLens rest := by
  simp [sumLens]

theorem contextBlocks_greedy (chunks : List String) :
    ∀ maxContextChars total i : Nat,
      ∃ m, m ≤ chunks.length
        ∧ contextBlocks maxContextChars total i chunks = labelBlocks i (chunks.take m)
        ∧ (∀ j, j < m → total + sumLens (chunks.take (j + 1)) ≤ maxContextChars)
        ∧ (m < chunks.length →
            maxContextChars < total + sumLens (chunks.take m) + (chunks.getD m "").data.length) := by
  induction chunks with
  | nil =>
    intro maxc total i
    exact ⟨0, le_refl 0, rfl, fun j hj => absurd hj (Nat.not_lt_zero j), fun h => absurd h (by simp)⟩
  | cons c rest ih =>
    intro maxc total i
    rw [contextBlocks]
    by_cases hbr : maxc < total + c.data.length
    · refine ⟨0, Nat.zero_le _, by rw [if_pos hbr]; rfl,
        fun j hj => absurd hj (Nat.not_lt_zero j), fun _ => ?_⟩
      simpa [sumLens_nil] using hbr
    · obtain ⟨m', hm'le, hblocks, hbudget, hstop⟩ := ih maxc (total + c.data.length) (i + 1)
      refine ⟨m' + 1, by simpa using hm'le, ?_, ?_, ?_⟩
      · rw [if_neg hbr, List.take_succ_cons, labelBlocks, hblocks]
      · intro j hj
        match j with
        | 0 => simpa [sumLens_cons, sumLens_nil] using le_of_not_lt hbr
        | j' + 1 =>
          have := hbudget j' (by omega)
          rw [List.take_succ_cons, sumLens_cons]
          omega
      · intro hlt
        have := hstop (by simpa using Nat.lt_of_succ_lt_succ (by simpa using hlt))
        rw [List.take_succ_cons, sumLens_cons, List.getD_cons_succ]
        omega

/-- C7: `assemble_prompt` context budget — CONFIRMED.  The context blocks
are built from the chunks in their given order as `CONTEXT i` labels over a
greedy prefix: each accepted chunk keeps the running total (seeded with the
user text's length, which is how the source accounts the budget) within
`max_context_chars`, and the first chunk that would exceed it stops the
loop.  Whenever the chunk list is non-empty and its first chunk fits that
budget, the result is the wrapped template around a non-empty block list;
if the chunk list is empty or the first block does not fit, `user_text` is
returned unchanged. -/
theorem assemble_prompt_spec (userPrompt : String) (chunks : List String)
    (maxContextChars : Nat) :
    (∃ m, m ≤ chunks.length
      ∧ contextBlocks maxContextChars userPrompt.data.length 0 chunks
          = labelBlocks 0 (chunks.take m)
      ∧ (∀ j, j < m →
          userPrompt.data.length + sumLens (chunks.take (j + 1)) ≤ maxContextChars)
      ∧ (m < chunks.length →
          maxContextChars < userPrompt.data.length + sumLens (chunks.take m)
            + (chunks.getD m "").data.length))
    ∧ (chunks ≠ [] →
        userPrompt.data.length + (chunks.headD "").data.length ≤ maxContextChars →
        contextBlocks maxContextChars userPrompt.data.length 0 chunks ≠ []
        ∧ assemble_prompt userPrompt chunks maxContextChars
            = wrapContext userPrompt
                (contextBlocks maxContextChars userPrompt.data.length 0 chunks))
    ∧ (chunks = [] → assemble_prompt userPrompt chunks maxContextChars = userPrompt)
    ∧ (maxContextChars < userPrompt.data.length + (chunks.headD "").data.length →
        assemble_prompt userPrompt chunks maxContextChars = userPrompt) := by
  refine ⟨contextBlocks_greedy chunks maxContextChars userPrompt.data.length 0, ?_, ?_, ?_⟩
  · intro hne hfit
    match chunks with
    | [] => exact absurd rfl hne
    | c :: rest =>
      have hblocks : contextBlocks maxContextChars userPrompt.data.length 0 (c :: rest)
          = labelBlock 0 c
            :: contextBlocks maxContextChars (userPrompt.data.length + c.data.length) 1 rest := by
        rw [contextBlocks, if_neg (not_lt.mpr (by simpa using hfit))]
      refine ⟨by rw [hblocks]; exact List.cons_ne_nil _ _, ?_⟩
      rw [assemble_prompt, if_neg hne]
      simp only [hblocks]
      rw [if_neg (List.cons_ne_nil _ _)]
  · intro he
    rw [assemble_prompt, if_pos he]
  · intro hbig
    match chunks with
    | [] => rw [assemble_prompt]; rfl
    | c :: rest =>
      have hblocks : contextBlocks maxContextChars userPrompt.data.length 0 (c :: rest) = [] := by
        rw [contextBlocks, if_pos (by simpa using hbig)]
      rw [assemble_prompt, if_neg (List.cons_ne_nil _ _)]
      simp only [hblocks]
      simp

/-! ## Refactor-prompt assembly (`instruction_parser.py`) and the
smart-chunking pipeline (`api/routes/_chunking_helper.py`,
`api/routes/inference.py`) -/

/-- `assemble_refactor_prompt(code_chunks, instruction)` as declared
(`code_chunks: list`): instruction-first template around the joined
chunks. -/
def assemble_refactor_prompt (codeChunks : List String) (instruction : String) : String :=
  if instruction = "" then String.intercalate "\n\n" codeChunks
  else
    instruction ++ "\n\nHere is the code to refactor:\n```python\n"
      ++ String.intercalate "\n\n" codeChunks ++ "\n\nRefactored code:\n```python\n"

/-- Python `sep.join(s)` where `s` is a *string*: joins the string's
characters (each character is a length-1 string). -/
def pyJoinOverStr (sep : String) (s : String) : String :=
  String.intercalate sep (s.data.map fun c => String.mk [c])

/-- `assemble_refactor_prompt` as actually invoked by
`inference.py:code_completion`, which passes a `str` where the function
declares a `list`: Python then iterates the string's characters, so
`"\n\n".join(code_chunks)` joins individual characters. -/
def assemble_refactor_promptStr (codeChars : String) (instruction : String) : String :=
  if instruction = "" then pyJoinOverStr "\n\n" codeChars
  else
    instruction ++ "\n\nHere is the code to refactor:\n```python\n"
      ++ pyJoinOverStr "\n\n" codeChars ++ "\n\nRefactored code:\n```python\n"

/-- `apply_smart_chunking(prompt)` (`_chunking_helper.py`).  Notes on the
embedding: Python's `k = min(3, len(unique_chunks) - 1)` with `k <= 0`
skipping compression is `min 3 (len - 1) = 0` over `Nat` (`len ≤ 1` skips
in both readings, the `-1` clamp being absorbed by the `k ≤ 0` test);
Python's truthiness test `if instruction` is `instruction ≠ ""`; the float
guard `len(assembled) >= len(original) * 0.9` is the exact comparison
`9 * len(original) ≤ 10 * len(assembled)` (for integer lengths below the
16 KB boundary cap, the `float` product `n * 0.9` rounds to a value whose
integer comparisons agree with the exact rational `9n/10`). -/
def apply_smart_chunking (prompt : String) : String × Bool :=
  let code := (extract_instruction prompt).1
  let instruction := (extract_instruction prompt).2
  if should_chunk code then
    let uniqueChunks := dedupe_chunks (chunk_text code)
    let k := min 3 (uniqueChunks.length - 1)
    if k = 0 then (prompt, false)
    else
      let query := if instruction ≠ "" then instruction else pyTakeLast code 300
      let selected := select_top_chunks uniqueChunks query k
      let assembled :=
        if instruction ≠ "" then assemble_refactor_prompt selected instruction
        else assemble_prompt code selected
      if 9 * prompt.data.length ≤ 10 * assembled.data.length then (prompt, false)
      else (assembled, true)
  else if instruction ≠ "" then (assemble_refactor_prompt [code] instruction, false)
  else (prompt, false)

/-- The prompt actually dispatched by `inference.py:code_completion`
(`request.prompt` after the chunking section).  Same structure as
`apply_smart_chunking`, but the instruction path first joins the selected
chunks into one string and then passes that *string* to
`assemble_refactor_prompt` (the duck-typed character-join variant). -/
def code_completion_prompt (prompt : String) : String :=
  let code := (extract_instruction prompt).1
  let instruction := (extract_instruction prompt).2
  if should_chunk code then
    let uniqueChunks := dedupe_chunks (chunk_text code)
    let k := min 3 (uniqueChunks.length - 1)
    if k = 0 then prompt
    else
      let query := if instruction ≠ "" then instruction else pyTakeLast code 300
      let selected := select_top_chunks uniqueChunks query k
      let assembled :=
        if instruction ≠ "" then
          assemble_refactor_promptStr (String.intercalate "\n\n" selected) instruction
        else assemble_prompt code selected
      if 9 * prompt.data.length ≤ 10 * assembled.data.length then prompt
      else assembled
  else if instruction ≠ "" then assemble_refactor_promptStr code instruction
  else prompt

/-- C4: compression-effectiveness guard of the pipeline — CONFIRMED.  For
every request whose code part triggers chunking: the dispatched prompt is
either the original prompt unchanged or an assembled prompt with
`10·len(assembled) < 9·len(original)` (strictly under 90%), in both the
shared helper and the inlined endpoint version; when the unique chunk
count leaves `k = min(3, count - 1) = 0`, compression is skipped entirely
and the original prompt is used; and with at least 2 unique chunks the
selection has exactly `min(3, count - 1)` chunks. -/
theorem compression_guard_spec (prompt : String)
    (hchunk : should_chunk (extract_instruction prompt).1 = true) :
    ((apply_smart_chunking prompt).1 = prompt
      ∨ 10 * (apply_smart_chunking prompt).1.data.length < 9 * prompt.data.length)
    ∧ (code_completion_prompt prompt = prompt
      ∨ 10 * (code_completion_prompt prompt).data.length < 9 * prompt.data.length)
    ∧ ((dedupe_chunks (chunk_text (extract_instruction prompt).1)).length ≤ 1 →
        apply_smart_chunking prompt = (prompt, false)
        ∧ code_completion_prompt prompt = prompt)
    ∧ (2 ≤ (dedupe_chunks (chunk_text (extract_instruction prompt).1)).length →
        ∀ query : String,
          (select_top_chunks (dedupe_chunks (chunk_text (extract_instruction prompt).1))
              query
              (min 3 ((dedupe_chunks (chunk_text (extract_instruction prompt).1)).length - 1))).length
            = min 3 ((dedupe_chunks (chunk_text (extract_instruction prompt).1)).length - 1)) := by
  set code := (extract_instruction prompt).1 with hcode
  set uniq := dedupe_chunks (chunk_text code) with huniq
  have hksel : ∀ query : String, 2 ≤ uniq.length →
      (select_top_chunks uniq query (min 3 (uniq.length - 1))).length
        = min 3 (uniq.length - 1) := by
    intro query h2
    have hklt : min 3 (uniq.length - 1) < uniq.length := by omega
    rw [select_top_chunks, if_neg (not_le.mpr hklt), List.length_take,
      (sortDesc_perm (fun c => score_chunk c query) uniq).length_eq]
    omega
  refine ⟨?_, ?_, ?_, fun h2 query => hksel query h2⟩
  · simp only [apply_smart_chunking, ← hcode, ← huniq, hchunk, if_true]
    by_cases hk : min 3 (uniq.length - 1) = 0
    · simp [hk]
    · simp only [hk, if_false]
      split
      all_goals split
      · exact Or.inl rfl
      · next hguard => exact Or.inr (by dsimp only; omega)
      · exact Or.inl rfl
      · next hguard => exact Or.inr (by dsimp only; omega)
  · simp only [code_completion_prompt, ← hcode, ← huniq, hchunk, if_true]
    by_cases hk : min 3 (uniq.length - 1) = 0
    · simp [hk]
    · simp only [hk, if_false]
      split
      all_goals split
      · exact Or.inl rfl
      · next hguard => exact Or.inr (by omega)
      · exact Or.inl rfl
      · next hguard => exact Or.inr (by omega)
  · intro hle
    have hk : min 3 (uniq.length - 1) = 0 := by omega
    constructor
    · simp [apply_smart_chunking, ← hcode, ← huniq, hchunk, hk]
    · simp [code_completion_prompt, ← hcode, ← huniq, hchunk, hk]

/-- A run of `n` copies of `'a'`: a concrete chunking-triggering prompt for
instantiating the pipeline theorems (deep kernel evaluation of a 1501-char
string is avoided by the structural lemmas below). -/
def aRun (n : Nat) : String :=
  String.mk (List.replicate n 'a')

theorem dropWhile_ws_replicate_a (n : Nat) :
    (List.replicate n 'a').dropWhile (fun c => c.isWhitespace) = List.replicate n 'a' := by
  match n with
  | 0 => rfl
  | m + 1 =>
    rw [List.replicate_succ, List.dropWhile_cons]
    simp

theorem pyStrip_aRun (n : Nat) : pyStrip (aRun n) = aRun n := by
  show String.mk ((((List.replicate n 'a').dropWhile _).reverse.dropWhile _).reverse) = _
  rw [dropWhile_ws_replicate_a, List.reverse_replicate, dropWhile_ws_replicate_a,
    List.reverse_replicate]
  rfl

theorem splitNl_replicate_a (n : Nat) :
    splitNl (List.replicate n 'a') = [List.replicate n 'a'] := by
  induction n with
  | zero => rfl
  | succ m ih =>
    rw [List.replicate_succ, splitNl, ih]
    simp

theorem replicate_a_ne_nil (n : Nat) (h : n ≠ 0) : List.replicate n 'a' ≠ [] := by
  intro heq
  have := congrArg List.length heq
  simp at this
  exact h this

theorem pySplitlines_aRun (n : Nat) (h : n ≠ 0) : pySplitlines (aRun n) = [aRun n] := by
  have hne := replicate_a_ne_nil n h
  simp only [pySplitlines]
  rw [show (aRun n).data = List.replicate n 'a' from rfl, if_neg hne, splitNl_replicate_a]
  rw [show ([List.replicate n 'a'] : List (List Char)).getLast? = some (List.replicate n 'a')
    from rfl]
  rw [if_neg (by simpa using hne)]
  rfl

theorem isMarkerLine_aRun (n : Nat) (h : n ≠ 0) : isMarkerLine (aRun n) = false := by
  obtain ⟨m, rfl⟩ := Nat.exists_eq_succ_of_ne_zero h
  show isMarkerLine (String.mk (List.replicate (m + 1) 'a')) = false
  rw [List.replicate_succ]
  rfl

theorem extract_instruction_aRun (n : Nat) (h : n ≠ 0) :
    extract_instruction (aRun n) = (aRun n, "") := by
  have hsplit : pySplitlines (pyStrip (aRun n)) = [aRun n] := by
    rw [pyStrip_aRun]; exact pySplitlines_aRun n h
  have hmark : isMarkerLine (pyStrip ([aRun n].getD 0 "")) = false := by
    show isMarkerLine (pyStrip (aRun n)) = false
    rw [pyStrip_aRun]; exact isMarkerLine_aRun n h
  simp only [extract_instruction, hsplit, List.length_cons, List.length_nil]
  rw [show scanIndices (0 + 1) = [0] from rfl, List.find?_cons]
  simp only [hmark]
  rfl

theorem should_chunk_aRun_1501 : should_chunk (extract_instruction (aRun 1501)).1 = true := by
  rw [extract_instruction_aRun 1501 (by norm_num)]
  show should_chunk (aRun 1501) = true
  have hlen : (aRun 1501).data.length = 1501 := by
    show (List.replicate 1501 'a').length = 1501
    exact List.length_replicate _ _
  simp only [should_chunk, hlen]
  rfl

/-- Witness for `compression_guard_spec` at the concrete prompt
`aRun 1501` (1501 characters of `'a'`, which triggers chunking). -/
theorem compression_guard_spec_witness :
    ((apply_smart_chunking (aRun 1501)).1 = aRun 1501
      ∨ 10 * (apply_smart_chunking (aRun 1501)).1.data.length < 9 * (aRun 1501).data.length)
    ∧ (code_completion_prompt (aRun 1501) = aRun 1501
      ∨ 10 * (code_completion_prompt (aRun 1501)).data.length < 9 * (aRun 1501).data.length) := by
  have h := compression_guard_spec (aRun 1501) should_chunk_aRun_1501
  exact ⟨h.1, h.2.1⟩

/-! ## Resilient remote client (`cerebrum/core/vps_client.py`)

The client's mutable attributes are a `ClientState`; `time.time()` is one
exact rational instant per call (the claims concern only the branch
decision `now - last_failure < cooldown` and which instant is stored);
`elapsed` stands for the measured success latency; the network is an
oracle `outcomes : Nat → AttemptOutcome` giving each attempt's result.
The `asyncio.Semaphore(1)` throttle is not modelled: the claims concern a
single sequential call. -/

/-- `self._cooldown_seconds = 10` (`VPSClient.__init__`). -/
def cooldownSeconds : ℚ := 10

/-- `max_retries: int = 2` (`VPSClient.__init__` default, used by the
router's singleton client). -/
def maxRetries : Nat := 2

/-- The client counters and circuit-breaker timestamp of `VPSClient`. -/
structure ClientState where
  requests_sent : Nat
  requests_successful : Nat
  requests_failed : Nat
  total_inference_time : ℚ
  last_failure_time : ℚ
deriving DecidableEq

/-- What one network attempt inside `VPSClient.inference` produces:
an HTTP response with a status code, or one of the exception classes the
`except` arms distinguish. -/
inductive AttemptOutcome where
  | ok
  | status (code : Nat)
  | timeout
  | connectError
  | otherError
deriving DecidableEq

/-- The two exception classes raised by `VPSClient.inference`. -/
inductive InfError where
  | unavailable (msg : String)
  | inferenceError (msg : String)
deriving DecidableEq

/-- Result of the attempt loop: a 200 response, or the last recorded
error. -/
inductive InfOutcome where
  | success
  | failure (e : InfError)
deriving DecidableEq

/-- The `for attempt in range(max_retries + 1)` loop of
`VPSClient.inference`.  Returns the outcome together with the number of
network attempts consumed from index `attempt` on.  A `200` returns
success; `503` raises `VPSUnavailableError` which the `except` arm turns
into a `break` (terminal); `403` and any other status raise
`VPSInferenceError`, also a `break`; timeouts, connection errors and
unexpected exceptions retry while `attempt < max_retries` and otherwise
fall out of the loop carrying the recorded error.  `fuel` is
`max_retries + 1 - attempt`, the remaining iterations; `lastErr` is
Python's `last_error`, only surfaced if the fuel is exhausted (unreachable
at the call site's fuel). -/
def attemptLoop (outcomes : Nat → AttemptOutcome) (maxR : Nat) :
    Nat → Nat → InfError → InfOutcome × Nat
  | _, 0, lastErr => (.failure lastErr, 0)
  | attempt, fuel + 1, _ =>
    match outcomes attempt with
    | .ok => (.success, 1)
    | .status c =>
      if c = 503 then (.failure (.unavailable "VPS overloaded"), 1)
      else if c = 403 then
        (.failure (.inferenceError "Authentication failed - check VPS_API_KEY"), 1)
      else (.failure (.inferenceError "VPS returned error status"), 1)
    | .timeout =>
      if attempt < maxR then
        let r := attemptLoop outcomes maxR (attempt + 1) fuel (.unavailable "VPS timeout")
        (r.1, r.2 + 1)
      else (.failure (.unavailable "VPS timeout"), 1)
    | .connectError =>
      if attempt < maxR then
        let r := attemptLoop outcomes maxR (attempt + 1) fuel
          (.unavailable "Cannot connect to VPS")
        (r.1, r.2 + 1)
      else (.failure (.unavailable "Cannot connect to VPS"), 1)
    | .otherError =>
      if attempt < maxR then
        let r := attemptLoop outcomes maxR (attempt + 1) fuel
          (.inferenceError "Unexpected error")
        (r.1, r.2 + 1)
      else (.failure (.inferenceError "Unexpected error"), 1)

/-- `VPSClient.inference`: the circuit-breaker check (fail fast with
`VPSUnavailableError`, no counter change, zero attempts), then
`requests_sent += 1`, the attempt loop, and either the success statistics
update or — on any failure, after the loop `break`s or exhausts —
`requests_failed += 1` and `self._last_failure_time = time.time()` before
re-raising the recorded error.  Returns the new state, the outcome, and
the number of network attempts performed. -/
def inference (st : ClientState) (now : ℚ) (elapsed : ℚ)
    (outcomes : Nat → AttemptOutcome) : ClientState × InfOutcome × Nat :=
  if now - st.last_failure_time < cooldownSeconds then
    (st, .failure (.unavailable "VPS in cooldown"), 0)
  else
    let st1 := { st with requests_sent := st.requests_sent + 1 }
    let r := attemptLoop outcomes maxRetries 0 (maxRetries + 1)
      (.inferenceError "no attempt made")
    match r.1 with
    | .success =>
      ({ st1 with
          requests_successful := st1.requests_successful + 1,
          total_inference_time := st1.total_inference_time + elapsed },
        .success, r.2)
    | .failure e =>
      ({ st1 with
          requests_failed := st1.requests_failed + 1,
          last_failure_time := now },
        .failure e, r.2)

/-- C1: circuit breaker after a 503 — CONFIRMED.  With the breaker closed
and the remote returning the overloaded sentinel (HTTP 503) on the first
attempt, the call performs exactly one network attempt (no retries after
the sentinel — the general conjunct shows a 503 at *any* attempt index
ends the loop with no further attempts), fails with
`VPSUnavailableError("VPS overloaded")`, and stamps the circuit-breaker
failure time with the call instant; any subsequent call issued while
`now2 - last_failure_time < cooldown_seconds` fails immediately with
`VPSUnavailableError`, performs zero network attempts, and leaves the
state — including `requests_sent` — untouched. -/
theorem circuit_breaker_503_spec (st : ClientState) (now now2 elapsed elapsed2 : ℚ)
    (outcomes outcomes2 : Nat → AttemptOutcome)
    (hopen : ¬ (now - st.last_failure_time < cooldownSeconds))
    (h503 : outcomes 0 = .status 503) :
    (inference st now elapsed outcomes).2.2 = 1
    ∧ (inference st now elapsed outcomes).2.1
        = .failure (.unavailable "VPS overloaded")
    ∧ (inference st now elapsed outcomes).1.last_failure_time = now
    ∧ (inference st now elapsed outcomes).1.requests_sent = st.requests_sent + 1
    ∧ (∀ attempt fuel lastErr, outcomes attempt = .status 503 →
        attemptLoop outcomes maxRetries attempt (fuel + 1) lastErr
          = (.failure (.unavailable "VPS overloaded"), 1))
    ∧ (now2 - now < cooldownSeconds →
        inference (inference st now elapsed outcomes).1 now2 elapsed2 outcomes2
          = ((inference st now elapsed outcomes).1,
              .failure (.unavailable "VPS in cooldown"), 0)) := by
  have hloop : ∀ attempt fuel lastErr, outcomes attempt = .status 503 →
      attemptLoop outcomes maxRetries attempt (fuel + 1) lastErr
        = (.failure (.unavailable "VPS overloaded"), 1) := by
    intro attempt fuel lastErr h
    rw [attemptLoop, h]
    rfl
  have hinf : inference st now elapsed outcomes
      = ({ st with
            requests_sent := st.requests_sent + 1,
            requests_failed := st.requests_failed + 1,
            last_failure_time := now },
          .failure (.unavailable "VPS overloaded"), 1) := by
    rw [inference, if_neg hopen]
    rw [hloop 0 maxRetries (.inferenceError "no attempt made") h503]
  refine ⟨by rw [hinf], by rw [hinf], by rw [hinf], by rw [hinf], hloop, ?_⟩
  intro hwin
  have hlast : (inference st now elapsed outcomes).1.last_failure_time = now := by
    rw [hinf]
  rw [inference, if_pos (by rw [hlast]; exact hwin)]

/-- Witness for `circuit_breaker_503_spec`: a fresh client at `t = 100`
(breaker closed since `100 - 0 ≥ 10`), remote answering 503, second call at
`t = 105` inside the 10-second cooldown window. -/
theorem circuit_breaker_503_spec_witness :
    (inference ⟨0, 0, 0, 0, 0⟩ 100 0 (fun _ => .status 503)).2.2 = 1
    ∧ (inference ⟨0, 0, 0, 0, 0⟩ 100 0 (fun _ => .status 503)).2.1
        = .failure (.unavailable "VPS overloaded")
    ∧ (inference ⟨0, 0, 0, 0, 0⟩ 100 0 (fun _ => .status 503)).1.last_failure_time = 100
    ∧ (inference ⟨0, 0, 0, 0, 0⟩ 100 0 (fun _ => .status 503)).1.requests_sent = 0 + 1
    ∧ inference (inference ⟨0, 0, 0, 0, 0⟩ 100 0 (fun _ => .status 503)).1 105 0
          (fun _ => .status 503)
        = ((inference ⟨0, 0, 0, 0, 0⟩ 100 0 (fun _ => .status 503)).1,
            .failure (.unavailable "VPS in cooldown"), 0) := by
  have h := circuit_breaker_503_spec ⟨0, 0, 0, 0, 0⟩ 100 105 0 0
    (fun _ => .status 503) (fun _ => .status 503)
    (by norm_num [cooldownSeconds]) rfl
  exact ⟨h.1, h.2.1, h.2.2.1, h.2.2.2.1, h.2.2.2.2.2 (by norm_num [cooldownSeconds])⟩

theorem attemptLoop_403 (outcomes : Nat → AttemptOutcome) (attempt fuel : Nat)
    (lastErr : InfError) (h : outcomes attempt = .status 403) :
    attemptLoop outcomes maxRetries attempt (fuel + 1) lastErr
      = (.failure (.inferenceError "Authentication failed - check VPS_API_KEY"), 1) := by
  rw [attemptLoop, h]
  rfl

/-- C2 counterexample: a 403 auth rejection DOES move the circuit-breaker
failure timestamp.  Fresh client (`last_failure_time = 0`), call at
`t = 100` (breaker closed), remote answers 403: the call is terminal after
one attempt with `VPSInferenceError`, but the failure timestamp is updated
to 100 — the shared failure exit (`requests_failed += 1;
self._last_failure_time = time.time()`) runs for the auth `break` too, so
the rejection is counted toward the cooldown, contradicting the claim that
the timestamp is left unchanged. -/
theorem auth_403_stamps_breaker_cex :
    (inference ⟨0, 0, 0, 0, 0⟩ 100 0 (fun _ => .status 403)).1.last_failure_time = 100
    ∧ (inference ⟨0, 0, 0, 0, 0⟩ 100 0 (fun _ => .status 403)).1.last_failure_time
        ≠ (⟨0, 0, 0, 0, 0⟩ : ClientState).last_failure_time
    ∧ (inference ⟨0, 0, 0, 0, 0⟩ 100 0 (fun _ => .status 403)).2.1
        = .failure (.inferenceError "Authentication failed - check VPS_API_KEY")
    ∧ (inference ⟨0, 0, 0, 0, 0⟩ 100 0 (fun _ => .status 403)).2.2 = 1
    ∧ inference (inference ⟨0, 0, 0, 0, 0⟩ 100 0 (fun _ => .status 403)).1 105 0
          (fun _ => .ok)
        = ((inference ⟨0, 0, 0, 0, 0⟩ 100 0 (fun _ => .status 403)).1,
            .failure (.unavailable "VPS in cooldown"), 0) := by
  have hinf : inference ⟨0, 0, 0, 0, 0⟩ 100 0 (fun _ => .status 403)
      = (⟨1, 0, 1, 0, 100⟩,
          .failure (.inferenceError "Authentication failed - check VPS_API_KEY"), 1) := by
    rw [inference, if_neg (by norm_num [cooldownSeconds])]
    rw [attemptLoop_403 _ 0 maxRetries _ rfl]
  refine ⟨by rw [hinf], by rw [hinf]; norm_num, by rw [hinf], by rw [hinf], ?_⟩
  rw [hinf]
  rw [inference, if_pos (by norm_num [cooldownSeconds])]

/-- C2 (amended): a remote auth rejection (HTTP 403) is terminal — the call
ends after that single attempt with `VPSInferenceError`, never retried —
but, contrary to the claim, it *is* counted toward the circuit-breaker
cooldown: the shared failure exit increments `requests_failed` and sets
`last_failure_time` to the call instant, so a subsequent call inside the
cooldown window is failed fast because of the auth rejection. -/
theorem auth_403_terminal_spec (st : ClientState) (now elapsed : ℚ)
    (outcomes : Nat → AttemptOutcome)
    (hopen : ¬ (now - st.last_failure_time < cooldownSeconds))
    (h403 : outcomes 0 = .status 403) :
    (inference st now elapsed outcomes).2.2 = 1
    ∧ (inference st now elapsed outcomes).2.1
        = .failure (.inferenceError "Authentication failed - check VPS_API_KEY")
    ∧ (inference st now elapsed outcomes).1.requests_failed = st.requests_failed + 1
    ∧ (inference st now elapsed outcomes).1.last_failure_time = now
    ∧ ∀ attempt fuel lastErr, outcomes attempt = .status 403 →
        attemptLoop outcomes maxRetries attempt (fuel + 1) lastErr
          = (.failure (.inferenceError "Authentication failed - check VPS_API_KEY"), 1) := by
  have hinf : inference st now elapsed outcomes
      = ({ st with
            requests_sent := st.requests_sent + 1,
            requests_failed := st.requests_failed + 1,
            last_failure_time := now },
          .failure (.inferenceError "Authentication failed - check VPS_API_KEY"), 1) := by
    rw [inference, if_neg hopen]
    rw [attemptLoop_403 _ 0 maxRetries _ h403]
  exact ⟨by rw [hinf], by rw [hinf], by rw [hinf], by rw [hinf],
    fun attempt fuel lastErr h => attemptLoop_403 outcomes attempt fuel lastErr h⟩

/-- Witness for `auth_403_terminal_spec`: fresh client, call at `t = 100`,
remote answering 403. -/
theorem auth_403_terminal_spec_witness :
    (inference ⟨0, 0, 0, 0, 0⟩ 100 0 (fun _ => .status 403)).2.2 = 1
    ∧ (inference ⟨0, 0, 0, 0, 0⟩ 100 0 (fun _ => .status 403)).2.1
        = .failure (.inferenceError "Authentication failed - check VPS_API_KEY")
    ∧ (inference ⟨0, 0, 0, 0, 0⟩ 100 0 (fun _ => .status 403)).1.requests_failed = 0 + 1
    ∧ (inference ⟨0, 0, 0, 0, 0⟩ 100 0 (fun _ => .status 403)).1.last_failure_time = 100 := by
  have h := auth_403_terminal_spec ⟨0, 0, 0, 0, 0⟩ 100 0 (fun _ => .status 403)
    (by norm_num [cooldownSeconds]) rfl
  exact ⟨h.1, h.2.1, h.2.2.1, h.2.2.2.1⟩

/-! ## Statistics (`assembler.py:get_assembly_stats`,
`vps_client.py:VPSClient.get_client_stats`) -/

/-- Python `round(x)` to an integer: round half to even (the `float`
binary-representation wrinkles of CPython's `round` do not matter for the
zero-guard properties studied here). -/
def pyRoundInt (x : ℚ) : ℤ :=
  if x - ⌊x⌋ < 1 / 2 then ⌊x⌋
  else if 1 / 2 < x - ⌊x⌋ then ⌊x⌋ + 1
  else if ⌊x⌋ % 2 = 0 then ⌊x⌋ else ⌊x⌋ + 1

/-- Python `round(x, d)`. -/
def pyRound (x : ℚ) (d : Nat) : ℚ :=
  (pyRoundInt (x * 10 ^ d) : ℚ) / 10 ^ d

theorem pyRound_zero (d : Nat) : pyRound 0 d = 0 := by
  simp [pyRound, pyRoundInt]

/-- The dict returned by `get_assembly_stats`. -/
structure AssemblyStats where
  original_chars : Nat
  chunks_selected : Nat
  final_chars : Nat
  reduction_percent : ℚ
deriving DecidableEq

/-- `get_assembly_stats(original_length, chunks_selected, final_length)`
(`assembler.py`): the reduction percentage is guarded by
`if original_length > 0 ... else 0`. -/
def get_assembly_stats (originalLength chunksSelected finalLength : Nat) : AssemblyStats :=
  { original_chars := originalLength
    chunks_selected := chunksSelected
    final_chars := finalLength
    reduction_percent :=
      if 0 < originalLength then
        pyRound ((1 - (finalLength : ℚ) / (originalLength : ℚ)) * 100) 1
      else 0 }

/-- The dict returned by `VPSClient.get_client_stats`. -/
structure ClientStats where
  requests_sent : Nat
  requests_successful : Nat
  requests_failed : Nat
  success_rate_percent : ℚ
  avg_inference_time_seconds : ℚ
  total_inference_time_seconds : ℚ
deriving DecidableEq

/-- `VPSClient.get_client_stats`: `avg_time` is guarded by
`requests_successful > 0`, `success_rate` by `requests_sent > 0`. -/
def get_client_stats (st : ClientState) : ClientStats :=
  { requests_sent := st.requests_sent
    requests_successful := st.requests_successful
    requests_failed := st.requests_failed
    success_rate_percent :=
      pyRound (if 0 < st.requests_sent then
        (st.requests_successful : ℚ) / (st.requests_sent : ℚ) * 100 else 0) 2
    avg_inference_time_seconds :=
      pyRound (if 0 < st.requests_successful then
        st.total_inference_time / (st.requests_successful : ℚ) else 0) 3
    total_inference_time_seconds := pyRound st.total_inference_time 2 }

/-- C10: the statistics computations are total with guarded divisions —
CONFIRMED.  Both functions are total Lean functions (defined for every
input), `get_assembly_stats` yields `reduction_percent = 0` whenever
`original_length = 0` (the division is never reached), and
`get_client_stats` yields `0.0` for the average inference time when
`requests_successful = 0` and `0.0` for the success rate when
`requests_sent = 0`. -/
theorem stats_guarded_divisions (o c f : Nat) (st : ClientState) :
    (o = 0 → (get_assembly_stats o c f).reduction_percent = 0)
    ∧ (st.requests_successful = 0 →
        (get_client_stats st).avg_inference_time_seconds = 0)
    ∧ (st.requests_sent = 0 → (get_client_stats st).success_rate_percent = 0) := by
  refine ⟨fun ho => ?_, fun hs => ?_, fun hr => ?_⟩
  · simp [get_assembly_stats, ho]
  · simp [get_client_stats, hs, pyRound_zero]
  · simp [get_client_stats, hr, pyRound_zero]

/-! ## Admission gate (`cerebrum/api/middleware/load_shed.py`) -/

/-- The gate's shared mutable state: the `self._inflight` counter, plus the
set (as a list of request ids) of currently admitted requests — the
ghost bookkeeping that ties each `finally` decrement to the request whose
`dispatch` incremented the counter. -/
structure GateState where
  inflight : Nat
  active : List Nat
deriving DecidableEq

/-- An event on the gate: a request of id `rid` arriving
(`isHealthCheck` marks health/status-check traffic), or an admitted
request finishing (`failed` marks the error path — the `finally` block
runs either way). -/
inductive GateEvent where
  | enter (rid : Nat) (isHealthCheck : Bool)
  | exitReq (rid : Nat) (failed : Bool)
deriving DecidableEq

/-- What the gate answers an arriving request. -/
inductive GateResponse where
  | overloaded503
  | admitted
  | bypassed
  | finished
deriving DecidableEq

/-- Modelled from the spec: "Health/status-check traffic bypasses this
gate."  The application wiring that keeps health/status endpoints outside
`LoadSheddingMiddleware` is not among the repository's files under `src/`
(no module there registers the middleware); `load_shed.py` itself contains
no path check, so the bypass is taken from the spec's words. -/
def bypassesGate (isHealthCheck : Bool) : Bool :=
  isHealthCheck

/-- One step of `LoadSheddingMiddleware.dispatch` (with `maxInflight` =
`max_inflight`, default 2): an arriving non-health request is rejected
with the 503 response — without incrementing — when
`self._inflight >= self._max`, and otherwise increments the counter; a
finishing admitted request decrements the counter unconditionally (the
`try/finally` discipline), on success and error paths alike. -/
def gateStep (maxInflight : Nat) (s : GateState) : GateEvent → GateState × GateResponse
  | .enter rid isHealthCheck =>
    if bypassesGate isHealthCheck then (s, .bypassed)
    else if maxInflight ≤ s.inflight then (s, .overloaded503)
    else ({ inflight := s.inflight + 1, active := rid :: s.active }, .admitted)
  | .exitReq rid _failed =>
    if rid ∈ s.active then
      ({ inflight := s.inflight - 1, active := s.active.erase rid }, .finished)
    else (s, .finished)

/-- The gate state after a sequence of events, starting from a given
state. -/
def runGate (maxInflight : Nat) : GateState → List GateEvent → GateState
  | s, [] => s
  | s, e :: rest => runGate maxInflight (gateStep maxInflight s e).1 rest

/-- The gate state after a sequence of events from the initial state
(`self._inflight = 0`, nothing admitted). -/
def gateAfter (maxInflight : Nat) (events : List GateEvent) : GateState :=
  runGate maxInflight ⟨0, []⟩ events

theorem runGate_inv (maxInflight : Nat) (events : List GateEvent) :
    ∀ s : GateState, s.inflight = s.active.length → s.inflight ≤ maxInflight →
      (runGate maxInflight s events).inflight
          = (runGate maxInflight s events).active.length
      ∧ (runGate maxInflight s events).inflight ≤ maxInflight := by
  induction events with
  | nil => intro s h1 h2; exact ⟨h1, h2⟩
  | cons e rest ih =>
    intro s h1 h2
    rw [runGate]
    match e with
    | .enter rid isHealthCheck =>
      rw [gateStep]
      by_cases hb : bypassesGate isHealthCheck
      · rw [if_pos hb]; exact ih s h1 h2
      · rw [if_neg hb]
        by_cases hfull : maxInflight ≤ s.inflight
        · rw [if_pos hfull]; exact ih s h1 h2
        · rw [if_neg hfull]
          apply ih
          · dsimp only
            simp [h1]
          · dsimp only
            omega
    | .exitReq rid failed =>
      rw [gateStep]
      by_cases hmem : rid ∈ s.active
      · rw [if_pos hmem]
        apply ih
        · dsimp only
          simp only [List.length_erase_of_mem hmem, h1]
        · dsimp only
          omega
      · rw [if_neg hmem]; exact ih s h1 h2

/-- C5: the admission gate — CONFIRMED, with the health bypass modelled
from the spec (the middleware wiring is not under `src/`).  After any
event sequence from the initial state: the in-flight counter equals the
number of currently admitted requests and never exceeds the configured
maximum; a non-health request arriving while the counter is at (or above)
the maximum is answered with the 503 overload response and the state —
including the counter — is unchanged; a health/status-check request never
touches the counter and is never rejected; and an admitted request's exit
decrements the counter by exactly one on every exit path, error paths
(`failed = true`) included. -/
theorem admission_gate_spec (maxInflight : Nat) (events : List GateEvent) :
    ((gateAfter maxInflight events).inflight
        = (gateAfter maxInflight events).active.length
      ∧ (gateAfter maxInflight events).inflight ≤ maxInflight)
    ∧ (∀ rid, maxInflight ≤ (gateAfter maxInflight events).inflight →
        gateStep maxInflight (gateAfter maxInflight events) (.enter rid false)
          = (gateAfter maxInflight events, .overloaded503))
    ∧ (∀ rid,
        gateStep maxInflight (gateAfter maxInflight events) (.enter rid true)
          = (gateAfter maxInflight events, .bypassed))
    ∧ (∀ rid failed, rid ∈ (gateAfter maxInflight events).active →
        (gateStep maxInflight (gateAfter maxInflight events)
            (.exitReq rid failed)).1.inflight + 1
          = (gateAfter maxInflight events).inflight) := by
  have hinv := runGate_inv maxInflight events ⟨0, []⟩ rfl (Nat.zero_le _)
  refine ⟨hinv, ?_, ?_, ?_⟩
  · intro rid hfull
    rw [gateStep]
    rw [if_neg (by simp [bypassesGate]), if_pos hfull]
  · intro rid
    rw [gateStep, if_pos (by simp [bypassesGate])]
  · intro rid failed hmem
    rw [gateStep, if_pos hmem]
    have hpos : 0 < (gateAfter maxInflight events).active.length :=
      List.length_pos.mpr (List.ne_nil_of_mem hmem)
    have := hinv.1
    simp only [gateAfter] at *
    omega
